import Mathlib

set_option linter.unusedVariables false

/- Shallow embedding of the schema-driven MCP reverse-proxy gateway of
   run_mcp_server.py (with the standalone variant mcp_proxy_server.py where
   the two differ).  Python strings are Lean strings (lists of characters),
   Python dicts are association lists in insertion order, decoded JSON
   documents are an inductive value type, and the outcomes of fallible
   awaited calls (request.json(), request.body(), the outbound dispatch)
   are supplied as explicit Option/sum-typed inputs. -/

/-- JSON values as produced by Python json decoding.  Numbers are modelled
as integers, which is enough for every claim considered here. -/
inductive Json where
  | null
  | bool (b : Bool)
  | num (n : Int)
  | str (s : String)
  | arr (elems : List Json)
  | obj (fields : List (String × Json))

/-- Python truthiness of a decoded JSON value, as tested by
`if not operation_id` and `body if body ... else None` in the source. -/
def pyTruthy : Json → Bool
  | .null => false
  | .bool b => b
  | .num n => n != 0
  | .str s => s != ""
  | .arr es => !es.isEmpty
  | .obj fs => !fs.isEmpty

/-- First-match association lookup: the model of Python dict indexing and
of `key in dict` membership on our ordered-association-list dicts. -/
def lookupA {κ ν : Type} [DecidableEq κ] (k : κ) : List (κ × ν) → Option ν
  | [] => none
  | p :: rest => if p.1 = k then some p.2 else lookupA k rest

/-- One left-to-right pass of Python str.replace over character lists.
The counter is the number of already-matched characters still to be
consumed without rescanning; at a fresh position a (here always
non-empty) pattern match emits the replacement and skips the match,
otherwise one character is kept.  Replacement text is never rescanned,
exactly as in CPython. -/
def replSkip (pat rep : List Char) : List Char → Nat → List Char
  | [], _ => []
  | _ :: cs, k + 1 => replSkip pat rep cs k
  | c :: cs, 0 =>
      if pat ≠ [] ∧ pat.isPrefixOf (c :: cs) then
        rep ++ replSkip pat rep cs (pat.length - 1)
      else
        c :: replSkip pat rep cs 0

/-- Python s.replace(pat, rep) for a non-empty pattern. -/
def pyReplace (s pat rep : String) : String :=
  ⟨replSkip pat.data rep.data s.data 0⟩

/-- Python s.strip of the single character "_", on character lists. -/
def stripUnderscoreChars (l : List Char) : List Char :=
  ((l.dropWhile (· == '_')).reverse.dropWhile (· == '_')).reverse

/-- Python s.strip applied with the argument "_". -/
def pyStripUnderscore (s : String) : String :=
  ⟨stripUnderscoreChars s.data⟩

/-- Python s.startswith(pre): the model of response content-type testing. -/
def pyStartsWith (s pre : String) : Bool :=
  pre.data.isPrefixOf s.data

/-- The synthesized operation id of run_mcp_server.py line 121 and
mcp_proxy_server.py line 111:
`f"{method}_{path.replace('/', '_').replace('\x7b', '').replace('\x7d', '').strip('_')}"`. -/
def deriveId (method path : String) : String :=
  method ++ "_" ++
    pyStripUnderscore (pyReplace (pyReplace (pyReplace path "/" "_") "\x7b" "") "\x7d" "")

/-- operation.get("operationId") followed by the falsy test
`if not operation_id` (run_mcp_server.py lines 118-121): a missing or
empty declared id is replaced by the derived one, any other declared id
is used verbatim. -/
def resolveOpId (method path : String) (declared : Option String) : String :=
  match declared with
  | some oid => if oid = "" then deriveId method path else oid
  | none => deriveId method path

/-- One operation object of the fetched schema.  Only the declared
operationId is interpreted by the proxy; OpenAPI declares it as a string,
and non-string or absent nodes are modelled as none. -/
structure Operation where
  operationId : Option String
deriving DecidableEq

/-- A path item: the method-to-operation dict below one path template. -/
abbrev PathItem := List (String × Operation)

/-- The paths dict of the schema, in document order. -/
abbrev SchemaPaths := List (String × PathItem)

/-- The fixed method list iterated by create_proxy_routes (line 115). -/
def recognizedMethods : List String := ["get", "post", "put", "delete", "patch"]

/-- One registered proxy route: the captured method, path template and the
operation id passed to the route decorator. -/
structure RouteDescriptor where
  method : String
  path : String
  operationId : String
deriving DecidableEq

/-- The routes registered for one schema path by the inner loop of
create_proxy_routes (lines 115-138): one per recognized method present
in the path item, in the fixed method order. -/
def routesForPath (pe : String × PathItem) : List RouteDescriptor :=
  recognizedMethods.filterMap (fun m =>
    (lookupA m pe.2).map (fun op => ⟨m, pe.1, resolveOpId m pe.1 op.operationId⟩))

/-- The route table built by create_proxy_routes (run_mcp_server.py lines
112-140): for each schema path, each of the five recognized methods
present in its path item registers exactly one route, in that order. -/
def createProxyRoutes (paths : SchemaPaths) : List RouteDescriptor :=
  paths.flatMap routesForPath

/-- Number of recognized methods present under one schema path, counted
on the path item itself. -/
def pathPairCount (pe : String × PathItem) : Nat :=
  pe.2.countP (fun mo => decide (mo.1 ∈ recognizedMethods))

/-- Number of (path, method) pairs of the schema whose method is one of
the five recognized ones, counted on the schema itself. -/
def schemaMethodPairs (paths : SchemaPaths) : Nat :=
  (paths.map pathPairCount).sum

/-- The request body value held by the handler after lines 53-62: either
the decoded JSON value of request.json() or the raw bytes of
request.body(). -/
inductive BodyVal where
  | json (j : Json)
  | raw (bytes : List Nat)

/-- The methods for which a body is read (line 55). -/
def bodyMethods : List String := ["POST", "PUT", "PATCH"]

/-- Lines 53-62: for POST/PUT/PATCH try request.json(), on failure try
request.body(); the outcome of each awaited call is an input (none
models the call raising). -/
def getBody (method : String) (jsonResult : Option Json) (rawResult : Option (List Nat)) :
    Option BodyVal :=
  if method ∈ bodyMethods then
    match jsonResult with
    | some j => some (.json j)
    | none =>
      match rawResult with
      | some bs => some (.raw bs)
      | none => none
  else none

/-- Python truthiness of the handler's body variable. -/
def bodyTruthy : Option BodyVal → Bool
  | some (.json j) => pyTruthy j
  | some (.raw bs) => !bs.isEmpty
  | none => false

/-- isinstance(body, dict) on the handler's body variable. -/
def bodyIsDict : Option BodyVal → Bool
  | some (.json (.obj _)) => true
  | _ => false

/-- The json kwarg of the outbound call (line 89):
`body if body and isinstance(body, dict) else None`. -/
def jsonArgOf (b : Option BodyVal) : Option Json :=
  match b with
  | some (.json (.obj fs)) => if !fs.isEmpty then some (.obj fs) else none
  | _ => none

/-- The content kwarg of the outbound call (line 90):
`body if body and not isinstance(body, dict) else None`. -/
def contentArgOf (b : Option BodyVal) : Option BodyVal :=
  match b with
  | some bv => if bodyTruthy (some bv) && !bodyIsDict (some bv) then some bv else none
  | none => none

/-- Lines 67-71 of run_mcp_server.py: copy exactly "authorization" and
"content-type" from the inbound headers when present (Starlette exposes
header names lowercased). -/
def requestHeadersIntegrated (inbound : List (String × String)) : List (String × String) :=
  ["authorization", "content-type"].filterMap (fun n =>
    (lookupA n inbound).map (fun v => (n, v)))

/-- Lines 59-62 of mcp_proxy_server.py: the standalone variant copies
only "authorization". -/
def requestHeadersStandalone (inbound : List (String × String)) : List (String × String) :=
  match lookupA "authorization" inbound with
  | some v => [("authorization", v)]
  | none => []

/-- Python dict(pairs): the first occurrence of a key fixes its position,
a later occurrence overwrites the value in place. -/
def dictInsert (d : List (String × String)) (k v : String) : List (String × String) :=
  if k ∈ d.map Prod.fst then
    d.map (fun q => if q.1 = k then (k, v) else q)
  else d ++ [(k, v)]

/-- dict(..) over an ordered pair sequence. -/
def pyDict (l : List (String × String)) : List (String × String) :=
  l.foldl (fun d p => dictInsert d p.1 p.2) []

/-- Character-level model of the substitution loop of lines 73-77: Python
dict iteration is insertion order, and each path parameter is substituted
by one full str.replace pass of "\x7bname\x7d" over the current path. -/
def substChars (template : List Char) (ps : List (List Char × List Char)) : List Char :=
  ps.foldl (fun acc p => replSkip ('\x7b' :: (p.1 ++ ['\x7d'])) p.2 acc 0) template

/-- The resolved target path of lines 73-77. -/
def substitutePath (template : String) (ps : List (String × String)) : String :=
  ⟨substChars template.data (ps.map (fun p => (p.1.data, p.2.data)))⟩

/-- One remote httpx response: status, headers (httpx lowercases names),
response text and the outcome of response.json() (none models raising). -/
structure RemoteResponse where
  status : Nat
  headers : List (String × String)
  bodyText : String
  jsonResult : Option Json

/-- response.headers.get("content-type", "") (line 94). -/
def contentTypeOf (headers : List (String × String)) : String :=
  (lookupA "content-type" headers).getD ""

/-- Lines 93-100: a content-type starting with "application/json" is
decoded, and on decode failure or any other content-type the raw
response text is wrapped as a single-field object. -/
def normalizedContent (r : RemoteResponse) : Json :=
  if pyStartsWith (contentTypeOf r.headers) "application/json" then
    match r.jsonResult with
    | some j => j
    | none => .obj [("content", .str r.bodyText)]
  else .obj [("content", .str r.bodyText)]

/-- One inbound call as the handler observes it. -/
structure Inbound where
  method : String
  headers : List (String × String)
  queryParams : List (String × String)
  pathParams : List (String × String)
  jsonResult : Option Json
  rawResult : Option (List Nat)

/-- The outbound httpx request material of lines 84-91. -/
structure Outbound where
  method : String
  url : String
  params : List (String × String)
  headers : List (String × String)
  jsonArg : Option Json
  contentArg : Option BodyVal

/-- The behaviour of the remote service on one outbound request:
either a response or an httpx.RequestError (connection failure). -/
inductive RemoteOutcome where
  | ok (r : RemoteResponse)
  | connError

/-- The handler's result: a JSONResponse or a raised HTTPException. -/
inductive HandlerResult where
  | response (content : Json) (status : Nat) (headers : List (String × String))
  | gatewayError (status : Nat)

/-- The three values a synthesized handler closes over. -/
structure HandlerCfg where
  targetUrl : String
  pathTemplate : String
  methodUpper : String

/-- Lines 52-91: the outbound request material built from one inbound
call by the integrated handler. -/
def buildOutbound (cfg : HandlerCfg) (req : Inbound) : Outbound :=
  let body := getBody req.method req.jsonResult req.rawResult
  ⟨cfg.methodUpper,
   cfg.targetUrl ++ substitutePath cfg.pathTemplate req.pathParams,
   pyDict req.queryParams,
   requestHeadersIntegrated req.headers,
   jsonArgOf body,
   contentArgOf body⟩

/-- Lines 82-108: build the outbound request, dispatch, normalize the
response; an httpx.RequestError becomes HTTPException(status_code=502). -/
def handler (cfg : HandlerCfg) (remote : Outbound → RemoteOutcome) (req : Inbound) :
    HandlerResult :=
  match remote (buildOutbound cfg req) with
  | .ok r => .response (normalizedContent r) r.status (pyDict r.headers)
  | .connError => .gatewayError 502

/-- The observable outcome of the startup GET of /openapi.json: a
connection/timeout error, or a status plus the decodability of the body. -/
inductive FetchOutcome where
  | connError
  | response (status : Nat) (jsonResult : Option Json)

/-- fetch_openapi_schema (lines 34-44): httpx raise_for_status accepts
exactly the 2xx range; an undecodable body makes response.json() raise,
which propagates out of the function like the two wrapped errors. -/
def fetchOpenapiSchema : FetchOutcome → Except String Json
  | .connError => .error "unreachable"
  | .response st body =>
      if 200 ≤ st ∧ st ≤ 299 then
        match body with
        | some j => .ok j
        | none => .error "undecodable"
      else .error "status"

/-- The fields of a JSON object node (non-objects have none). -/
def asObj : Json → List (String × Json)
  | .obj fs => fs
  | _ => []

/-- Schema traversal of create_proxy_routes: openapi_schema.get("paths", {})
and, per path item, its method entries with their declared operationId
(string-valued, as OpenAPI declares it). -/
def toPaths (schema : Json) : SchemaPaths :=
  (asObj ((lookupA "paths" (asObj schema)).getD (.obj []))).map (fun pe =>
    (pe.1, (asObj pe.2).map (fun me =>
      (me.1, ⟨match lookupA "operationId" (asObj me.2) with
              | some (.str s) => some s
              | _ => none⟩))))

/-- setup_mcp_server lines 151-177: a fetch failure prints and returns
None before any route is created; on success exactly the built route
table is registered on the fresh proxy app. -/
def setupRoutes (outcome : FetchOutcome) : Option (List RouteDescriptor) :=
  match fetchOpenapiSchema outcome with
  | .error _ => none
  | .ok schema => some (createProxyRoutes (toPaths schema))

/-- A path template split into literal runs and named placeholders; its
rendering is the template string the schema declares. -/
inductive TSeg where
  | lit (s : List Char)
  | hole (name : List Char)
deriving DecidableEq

/-- Rendering of a segment template back into its character string. -/
def renderT : List TSeg → List Char
  | [] => []
  | .lit s :: rest => s ++ renderT rest
  | .hole n :: rest => '\x7b' :: (n ++ '\x7d' :: renderT rest)

/-- A character list free of both brace characters. -/
def braceFree (l : List Char) : Prop := '\x7b' ∉ l ∧ '\x7d' ∉ l

instance (l : List Char) : Decidable (braceFree l) := by
  unfold braceFree
  infer_instance

/-- A well-formed template segment: literal runs contain no opening
brace and placeholder names contain no brace at all. -/
def segWf : TSeg → Prop
  | .lit s => '\x7b' ∉ s
  | .hole n => braceFree n

instance (seg : TSeg) : Decidable (segWf seg) := by
  cases seg <;> (unfold segWf; infer_instance)

/-- Effect of substituting one named parameter on one segment. -/
def applySeg (n v : List Char) : TSeg → TSeg
  | .lit s => .lit s
  | .hole m => if m = n then .lit v else .hole m

/-- Modelled from the spec claim: simultaneous best-effort substitution -
each placeholder whose name has a matching inbound value is replaced by
that value, every other placeholder is left as literal text. -/
def segSubst (ps : List (List Char × List Char)) : TSeg → TSeg
  | .lit s => .lit s
  | .hole n =>
      match lookupA n ps with
      | some v => .lit v
      | none => .hole n

/-- The claim-side resolved path: simultaneous substitution, rendered. -/
def claimSubst (t : List TSeg) (ps : List (List Char × List Char)) : List Char :=
  renderT (t.map (segSubst ps))

/-- Modelled from the spec claim for identifier derivation: one pass that
strips the brace characters, turns each path separator into an
underscore, then strips leading and trailing underscores. -/
def specNormalizeChars (l : List Char) : List Char :=
  stripUnderscoreChars (l.filterMap (fun c =>
    if c = '\x7b' ∨ c = '\x7d' then none
    else if c = '/' then some '_' else some c))

/-- String form of the claim-side normalization. -/
def specNormalize (p : String) : String :=
  ⟨specNormalizeChars p.data⟩

/- ------------------------------------------------------------------ -/
/- Helper lemmas                                                       -/
/- ------------------------------------------------------------------ -/

theorem isPrefixOfApp : ∀ (x y : List Char), x.isPrefixOf (x ++ y) = true := by
  intro x y
  induction x with
  | nil => simp [List.isPrefixOf]
  | cons a x ih => simp [List.isPrefixOf, ih]

theorem replSkipSkips (pat rep : List Char) :
    ∀ (x l : List Char), replSkip pat rep (x ++ l) x.length = replSkip pat rep l 0 := by
  intro x
  induction x with
  | nil => intro l; rfl
  | cons c x ih => intro l; simp [replSkip, ih l]

theorem replSkipMatch (pat rep l : List Char) (h : pat ≠ []) :
    replSkip pat rep (pat ++ l) 0 = rep ++ replSkip pat rep l 0 := by
  cases pat with
  | nil => exact absurd rfl h
  | cons p pt =>
      have hpre : (p :: pt).isPrefixOf (p :: pt ++ l) = true := isPrefixOfApp _ _
      have hcond : (p :: pt) ≠ [] ∧ (p :: pt).isPrefixOf (p :: (pt ++ l)) := by
        exact ⟨by simp, hpre⟩
      show replSkip (p :: pt) rep (p :: (pt ++ l)) 0 = _
      rw [replSkip, if_pos hcond]
      have : (p :: pt).length - 1 = pt.length := by simp
      rw [this, replSkipSkips]

theorem replSkipLit (pat rep : List Char) (pt : List Char) (hp : pat = '\x7b' :: pt) :
    ∀ (l1 l2 : List Char), '\x7b' ∉ l1 →
      replSkip pat rep (l1 ++ l2) 0 = l1 ++ replSkip pat rep l2 0 := by
  intro l1
  induction l1 with
  | nil => intro l2 _; rfl
  | cons c l1 ih =>
      intro l2 hmem
      have hc : ('\x7b' : Char) ≠ c := fun h => hmem (h ▸ List.mem_cons_self _ _)
      have hpre : pat.isPrefixOf (c :: (l1 ++ l2)) = false := by
        subst hp
        simp [List.isPrefixOf, hc]
      show replSkip pat rep (c :: (l1 ++ l2)) 0 = _
      rw [replSkip, if_neg (by simp [hpre])]
      have := ih l2 (fun h => hmem (List.mem_cons_of_mem _ h))
      simp [this]

theorem notPrefixOfNeName :
    ∀ (n m l : List Char), n ≠ m → '\x7d' ∉ n → '\x7d' ∉ m →
      (n ++ ['\x7d']).isPrefixOf (m ++ '\x7d' :: l) = false := by
  intro n
  induction n with
  | nil =>
      intro m l hnm hn hm
      cases m with
      | nil => exact absurd rfl hnm
      | cons c m =>
          have hc : ('\x7d' : Char) ≠ c := fun h => hm (h ▸ List.mem_cons_self _ _)
          simp [List.isPrefixOf, hc]
  | cons a n ih =>
      intro m l hnm hn hm
      cases m with
      | nil =>
          have ha : a ≠ '\x7d' := fun h => hn (h ▸ List.mem_cons_self _ _)
          simp [List.isPrefixOf, ha]
      | cons c m =>
          by_cases hac : a = c
          · subst hac
            have hnm2 : n ≠ m := fun h => hnm (h ▸ rfl)
            have hn2 : '\x7d' ∉ n := fun h => hn (List.mem_cons_of_mem _ h)
            have hm2 : '\x7d' ∉ m := fun h => hm (List.mem_cons_of_mem _ h)
            simp [List.isPrefixOf, ih m l hnm2 hn2 hm2]
          · simp [List.isPrefixOf, hac]

theorem replSkipHoleNe (n m v l : List Char) (hnm : n ≠ m)
    (hn : braceFree n) (hm : braceFree m) :
    replSkip ('\x7b' :: (n ++ ['\x7d'])) v ('\x7b' :: (m ++ '\x7d' :: l)) 0
      = '\x7b' :: (m ++ '\x7d' :: replSkip ('\x7b' :: (n ++ ['\x7d'])) v l 0) := by
  have hpre1 : ('\x7b' :: (n ++ ['\x7d'])).isPrefixOf ('\x7b' :: (m ++ '\x7d' :: l)) = false := by
    simp only [List.isPrefixOf, beq_self_eq_true, Bool.true_and]
    exact notPrefixOfNeName n m l hnm hn.2 hm.2
  rw [replSkip, if_neg (fun hc => by rw [hpre1] at hc; exact Bool.false_ne_true hc.2)]
  rw [replSkipLit _ _ _ rfl m ('\x7d' :: l) hm.1]
  have hpre2 : ('\x7b' :: (n ++ ['\x7d'])).isPrefixOf ('\x7d' :: l) = false := rfl
  rw [replSkip, if_neg (fun hc => by rw [hpre2] at hc; exact Bool.false_ne_true hc.2)]

theorem replSkipRender (n v : List Char) (hn : braceFree n) :
    ∀ (t : List TSeg),
      (∀ s, TSeg.lit s ∈ t → '\x7b' ∉ s) →
      (∀ m, TSeg.hole m ∈ t → braceFree m) →
      replSkip ('\x7b' :: (n ++ ['\x7d'])) v (renderT t) 0 = renderT (t.map (applySeg n v)) := by
  intro t
  induction t with
  | nil => intro _ _; rfl
  | cons seg rest ih =>
      intro hlits hholes
      have hlits2 : ∀ s, TSeg.lit s ∈ rest → '\x7b' ∉ s :=
        fun s hs => hlits s (List.mem_cons_of_mem _ hs)
      have hholes2 : ∀ m, TSeg.hole m ∈ rest → braceFree m :=
        fun m hs => hholes m (List.mem_cons_of_mem _ hs)
      cases seg with
      | lit s =>
          have hs : '\x7b' ∉ s := hlits s (List.mem_cons_self _ _)
          show replSkip _ v (s ++ renderT rest) 0 = renderT (.lit s :: rest.map (applySeg n v))
          rw [replSkipLit _ _ _ rfl s (renderT rest) hs, ih hlits2 hholes2]
          rfl
      | hole m =>
          by_cases hmn : m = n
          · subst hmn
            have hshape : renderT (TSeg.hole m :: rest)
                = ('\x7b' :: (m ++ ['\x7d'])) ++ renderT rest := by
              simp [renderT]
            rw [hshape, replSkipMatch _ _ _ (by simp), ih hlits2 hholes2]
            simp [applySeg, renderT]
          · have hm : braceFree m := hholes m (List.mem_cons_self _ _)
            show replSkip _ v ('\x7b' :: (m ++ '\x7d' :: renderT rest)) 0 = _
            rw [replSkipHoleNe n m v (renderT rest) (fun h => hmn h.symm) hn hm,
              ih hlits2 hholes2]
            simp [applySeg, hmn, renderT]

theorem substCharsRender :
    ∀ (ps : List (List Char × List Char)) (t : List TSeg),
      (∀ s, TSeg.lit s ∈ t → '\x7b' ∉ s) →
      (∀ m, TSeg.hole m ∈ t → braceFree m) →
      (∀ p ∈ ps, braceFree p.1 ∧ '\x7b' ∉ p.2) →
      substChars (renderT t) ps
        = renderT (ps.foldl (fun acc p => acc.map (applySeg p.1 p.2)) t) := by
  intro ps
  induction ps with
  | nil => intro t _ _ _; rfl
  | cons p ps ih =>
      intro t hlits hholes hps
      have hp := hps p (List.mem_cons_self _ _)
      have hstep :
          substChars (renderT t) (p :: ps)
            = substChars (replSkip ('\x7b' :: (p.1 ++ ['\x7d'])) p.2 (renderT t) 0) ps := rfl
      rw [hstep, replSkipRender p.1 p.2 hp.1 t hlits hholes]
      have hlits2 : ∀ s, TSeg.lit s ∈ t.map (applySeg p.1 p.2) → '\x7b' ∉ s := by
        intro s hs
        rcases List.mem_map.mp hs with ⟨seg, hseg, heq⟩
        cases seg with
        | lit t0 =>
            have h0 : TSeg.lit t0 = TSeg.lit s := heq
            cases h0
            exact hlits _ hseg
        | hole m =>
            by_cases hm : m = p.1
            · have h0 : TSeg.lit p.2 = TSeg.lit s := by
                rw [show applySeg p.1 p.2 (TSeg.hole m) = TSeg.lit p.2 by
                  simp [applySeg, hm]] at heq
                exact heq
              cases h0
              exact hp.2
            · have h0 : TSeg.hole m = TSeg.lit s := by
                rw [show applySeg p.1 p.2 (TSeg.hole m) = TSeg.hole m by
                  simp [applySeg, hm]] at heq
                exact heq
              cases h0
      have hholes2 : ∀ m, TSeg.hole m ∈ t.map (applySeg p.1 p.2) → braceFree m := by
        intro m hs
        rcases List.mem_map.mp hs with ⟨seg, hseg, heq⟩
        cases seg with
        | lit t0 =>
            have h0 : TSeg.lit t0 = TSeg.hole m := heq
            cases h0
        | hole m0 =>
            by_cases hm : m0 = p.1
            · have h0 : TSeg.lit p.2 = TSeg.hole m := by
                rw [show applySeg p.1 p.2 (TSeg.hole m0) = TSeg.lit p.2 by
                  simp [applySeg, hm]] at heq
                exact heq
              cases h0
            · have h0 : TSeg.hole m0 = TSeg.hole m := by
                rw [show applySeg p.1 p.2 (TSeg.hole m0) = TSeg.hole m0 by
                  simp [applySeg, hm]] at heq
                exact heq
              cases h0
              exact hholes _ hseg
      have hps2 : ∀ q ∈ ps, braceFree q.1 ∧ '\x7b' ∉ q.2 :=
        fun q hq => hps q (List.mem_cons_of_mem _ hq)
      rw [ih _ hlits2 hholes2 hps2]
      rfl

theorem segSubstApply (q : List Char × List Char) (ps : List (List Char × List Char))
    (seg : TSeg) : segSubst ps (applySeg q.1 q.2 seg) = segSubst (q :: ps) seg := by
  obtain ⟨k, v⟩ := q
  cases seg with
  | lit s => rfl
  | hole m =>
      by_cases hm : m = k
      · subst hm
        simp [applySeg, segSubst, lookupA]
      · have hk : k ≠ m := fun h => hm h.symm
        simp [applySeg, segSubst, lookupA, hm, hk]

theorem mapSegSubstNil : ∀ (t : List TSeg), t.map (segSubst []) = t := by
  intro t
  induction t with
  | nil => rfl
  | cons seg rest ih => cases seg <;> simp [segSubst, lookupA, ih]

theorem foldApplyEq :
    ∀ (ps : List (List Char × List Char)) (t : List TSeg),
      ps.foldl (fun acc p => acc.map (applySeg p.1 p.2)) t = t.map (segSubst ps) := by
  intro ps
  induction ps with
  | nil => intro t; exact (mapSegSubstNil t).symm
  | cons p ps ih =>
      intro t
      have hstep :
          (p :: ps).foldl (fun acc q => acc.map (applySeg q.1 q.2)) t
            = ps.foldl (fun acc q => acc.map (applySeg q.1 q.2)) (t.map (applySeg p.1 p.2)) := rfl
      rw [hstep, ih, List.map_map]
      have hfun : (segSubst ps ∘ applySeg p.1 p.2) = segSubst (p :: ps) :=
        funext (fun seg => segSubstApply p ps seg)
      rw [hfun]

/-- Claim C5 (amended): path substitution is total and best-effort - for a
well-formed path template, whenever the inbound parameter names are
brace-free and no parameter value contains an opening brace, the
sequential str.replace loop of lines 73-77 resolves the template exactly
as simultaneous substitution does: every placeholder with a matching
inbound value is replaced by that value and every other placeholder is
left as literal text, without any error.  (The original claim's fully
general quantification over parameter mappings fails: a value that
itself contains placeholder text is rescanned by the later replace
passes, see the counterexample.) -/
theorem pathSubstitutionClaim (t : List TSeg) (ps : List (String × String))
    (hseg : ∀ seg ∈ t, segWf seg)
    (hps : ∀ p ∈ ps, braceFree p.1.data ∧ '\x7b' ∉ p.2.data) :
    substitutePath ⟨renderT t⟩ ps
      = ⟨claimSubst t (ps.map (fun p => (p.1.data, p.2.data)))⟩ := by
  unfold substitutePath claimSubst
  have hlits : ∀ s, TSeg.lit s ∈ t → '\x7b' ∉ s := fun s hs => hseg _ hs
  have hholes : ∀ m, TSeg.hole m ∈ t → braceFree m := fun m hm => hseg _ hm
  have hcond : ∀ p ∈ ps.map (fun p => (p.1.data, p.2.data)),
      braceFree p.1 ∧ '\x7b' ∉ p.2 := by
    intro p hp
    rcases List.mem_map.mp hp with ⟨q, hq, rfl⟩
    exact hps q hq
  have h := substCharsRender (ps.map (fun p => (p.1.data, p.2.data))) t hlits hholes hcond
  rw [h, foldApplyEq]

/-- Witness for C5: the spec's own example, template /items/(id)/sub/(sub_id)
with only id bound, resolved with the missing placeholder left literal. -/
theorem pathSubstitutionClaim_witness :
    substitutePath "/items/{id}/sub/{sub_id}" [("id", "7")] = "/items/7/sub/{sub_id}" := by
  have h := pathSubstitutionClaim
    [TSeg.lit ("/items/".data), TSeg.hole ("id".data),
     TSeg.lit ("/sub/".data), TSeg.hole ("sub_id".data)]
    [("id", "7")] (by decide) (by decide)
  have e : ("/items/{id}/sub/{sub_id}" : String)
      = (⟨renderT [TSeg.lit ("/items/".data), TSeg.hole ("id".data),
          TSeg.lit ("/sub/".data), TSeg.hole ("sub_id".data)]⟩ : String) := by decide
  rw [e, h]
  decide

/-- Counterexample to C5 as literally stated: with parameter values that
contain placeholder syntax the sequential loop substitutes them again,
so the resolved path differs from simultaneous placeholder-by-value
substitution: the code maps x to "(y)" and then rewrites that text too. -/
theorem pathSubstitutionClaim_cex :
    substitutePath "/a/{x}/{y}" [("x", "\x7by\x7d"), ("y", "3")] = "/a/3/3" ∧
    claimSubst [TSeg.lit ("/a/".data), TSeg.hole ("x".data),
        TSeg.lit ("/".data), TSeg.hole ("y".data)]
      [("x".data, "\x7by\x7d".data), ("y".data, "3".data)] = "/a/\x7by\x7d/3".data ∧
    ("/a/3/3" : String) ≠ "/a/\x7by\x7d/3" := by
  refine ⟨by decide, by decide, by decide⟩

theorem replSkipSingleMap (a b : Char) :
    ∀ l : List Char, replSkip [a] [b] l 0 = l.map (fun c => if c = a then b else c) := by
  intro l
  induction l with
  | nil => rfl
  | cons c cs ih =>
      by_cases hc : c = a
      · subst hc
        have hcond : ([c] : List Char) ≠ [] ∧ [c].isPrefixOf (c :: cs) := by
          exact ⟨by simp, by simp [List.isPrefixOf]⟩
        rw [replSkip, if_pos hcond]
        simp [ih]
      · have hpre : ([a] : List Char).isPrefixOf (c :: cs) = false := by
          have : (a == c) = false := beq_eq_false_iff_ne.mpr (fun h => hc h.symm)
          simp [List.isPrefixOf, this]
        rw [replSkip, if_neg (fun hcc => by rw [hpre] at hcc; exact Bool.false_ne_true hcc.2)]
        simp [ih, hc]

theorem replSkipSingleDel (a : Char) :
    ∀ l : List Char, replSkip [a] [] l 0 = l.filter (fun c => !(c == a)) := by
  intro l
  induction l with
  | nil => rfl
  | cons c cs ih =>
      by_cases hc : c = a
      · subst hc
        have hcond : ([c] : List Char) ≠ [] ∧ [c].isPrefixOf (c :: cs) := by
          exact ⟨by simp, by simp [List.isPrefixOf]⟩
        rw [replSkip, if_pos hcond]
        simp [ih]
      · have hpre : ([a] : List Char).isPrefixOf (c :: cs) = false := by
          have : (a == c) = false := beq_eq_false_iff_ne.mpr (fun h => hc h.symm)
          simp [List.isPrefixOf, this]
        rw [replSkip, if_neg (fun hcc => by rw [hpre] at hcc; exact Bool.false_ne_true hcc.2)]
        simp [ih, List.filter_cons, hc]

theorem normChainEqFilterMap :
    ∀ p : List Char,
      replSkip ['\x7d'] [] (replSkip ['\x7b'] [] (replSkip ['/'] ['_'] p 0) 0) 0
        = p.filterMap (fun c =>
            if c = '\x7b' ∨ c = '\x7d' then none
            else if c = '/' then some '_' else some c) := by
  intro p
  rw [replSkipSingleMap, replSkipSingleDel, replSkipSingleDel]
  induction p with
  | nil => rfl
  | cons c cs ih =>
      by_cases h1 : c = '/'
      · subst h1
        simp [List.filterMap_cons, ih]
      · by_cases h2 : c = '\x7b'
        · subst h2
          simp [List.filterMap_cons, ih]
        · by_cases h3 : c = '\x7d'
          · subst h3
            simp [List.filterMap_cons, ih]
          · have e2 : (c == '\x7b') = false := beq_eq_false_iff_ne.mpr h2
            have e3 : (c == '\x7d') = false := beq_eq_false_iff_ne.mpr h3
            simp [List.filterMap_cons, ih, h1, h2, h3, e2, e3]

/-- Claim C2 (amended): a declared, non-empty operation identifier is
used verbatim (the falsy test also re-derives for a declared empty
string); otherwise the derived identifier is method_normalized-path
where normalization turns EACH path separator into one underscore
(repeated separators are NOT collapsed into a single underscore),
removes the placeholder braces and strips leading and trailing
underscores; in particular (get, /users/(user_id)) derives
get_users_user_id.  Derivation is a pure function, so determinism is
immediate. -/
theorem opIdDerivation :
    (∀ m p oid, oid ≠ "" → resolveOpId m p (some oid) = oid) ∧
    (∀ m p, resolveOpId m p none = m ++ "_" ++ specNormalize p) ∧
    resolveOpId "get" "/users/{user_id}" none = "get_users_user_id" := by
  refine ⟨?_, ?_, by decide⟩
  · intro m p oid h
    simp [resolveOpId, h]
  · intro m p
    show deriveId m p = _
    unfold deriveId specNormalize pyStripUnderscore pyReplace specNormalizeChars
    have d1 : ("/" : String).data = ['/'] := rfl
    have d2 : ("_" : String).data = ['_'] := rfl
    have d3 : ("\x7b" : String).data = ['\x7b'] := rfl
    have d4 : ("\x7d" : String).data = ['\x7d'] := rfl
    have d5 : ("" : String).data = ([] : List Char) := rfl
    rw [d1, d2, d3, d4, d5, normChainEqFilterMap]

/-- Witness for C2: a declared identifier is returned verbatim. -/
theorem opIdDerivation_witness :
    resolveOpId "get" "/x" (some "customId") = "customId" :=
  opIdDerivation.1 "get" "/x" "customId" (by decide)

/-- Counterexample to C2 as literally stated: repeated path separators
are not collapsed - the code derives get_a__b for (get, /a//b), not the
claimed single-underscore get_a_b. -/
theorem opIdDerivation_cex :
    resolveOpId "get" "/a//b" none = "get_a__b" ∧
    resolveOpId "get" "/a//b" none ≠ "get_a_b" := by
  exact ⟨by decide, by decide⟩

theorem lengthFilterMapCountP {α β : Type} (f : α → Option β) :
    ∀ l : List α, (l.filterMap f).length = l.countP (fun a => (f a).isSome) := by
  intro l
  induction l with
  | nil => rfl
  | cons a l ih =>
      cases hfa : f a with
      | none => simp [List.filterMap_cons, hfa, List.countP_cons, ih]
      | some b => simp [List.filterMap_cons, hfa, List.countP_cons, ih]

theorem lookupAEqNone {κ ν : Type} [DecidableEq κ] (k : κ) :
    ∀ (l : List (κ × ν)), k ∉ l.map Prod.fst → lookupA k l = none := by
  intro l
  induction l with
  | nil => intro _; rfl
  | cons p l ih =>
      intro h
      rw [List.map_cons, List.mem_cons] at h
      push_neg at h
      have hne : p.1 ≠ k := fun he => h.1 he.symm
      simp [lookupA, hne, ih h.2]

theorem countPShift (R : List String) (k : String) (p q : String → Bool)
    (hR : R.Nodup) (hpk : p k = true) (hqk : q k = false)
    (hagree : ∀ m, m ≠ k → p m = q m) :
    R.countP p = R.countP q + (if k ∈ R then 1 else 0) := by
  induction R with
  | nil => simp
  | cons r R ih =>
      rw [List.nodup_cons] at hR
      by_cases hr : r = k
      · subst hr
        have hcong : R.countP p = R.countP q := by
          apply List.countP_congr
          intro x hx
          have hxr : x ≠ r := fun he => hR.1 (he ▸ hx)
          rw [hagree x hxr]
      
        simp [List.countP_cons, hpk, hqk, hcong]
      · have hpr : p r = q r := hagree r hr
        have hkmem : (k ∈ r :: R) ↔ k ∈ R := by
          rw [List.mem_cons]
          constructor
          · rintro (h | h)
            · exact absurd h.symm hr
            · exact h
          · exact fun h => Or.inr h
        rw [List.countP_cons, List.countP_cons, ih hR.2, hpr]
        simp only [hkmem]
        ring

theorem countLookupA :
    ∀ (item : PathItem), (item.map Prod.fst).Nodup →
      recognizedMethods.countP (fun m => (lookupA m item).isSome)
        = item.countP (fun mo => decide (mo.1 ∈ recognizedMethods)) := by
  intro item
  induction item with
  | nil =>
      intro _
      have h0 : ∀ m ∈ recognizedMethods, ¬((lookupA m ([] : PathItem)).isSome = true) := by
        intro m _
        simp [lookupA]
      simp [List.countP_eq_zero.mpr h0]
  | cons e item ih =>
      intro hN
      rw [List.map_cons, List.nodup_cons] at hN
      have hq : (lookupA e.1 item).isSome = false := by
        rw [lookupAEqNone e.1 item hN.1]
        rfl
      have hcong : recognizedMethods.countP (fun m => (lookupA m (e :: item)).isSome)
          = recognizedMethods.countP
              (fun m => if e.1 = m then true else (lookupA m item).isSome) := by
        apply List.countP_congr
        intro m _
        by_cases hm : e.1 = m
        · simp [lookupA, hm]
        · simp [lookupA, hm]
      rw [hcong,
        countPShift recognizedMethods e.1
          (fun m => if e.1 = m then true else (lookupA m item).isSome)
          (fun m => (lookupA m item).isSome)
          (by decide) (by simp) hq
          (by intro m hm; simp only [if_neg (show ¬ e.1 = m from fun h => hm h.symm)]),
        ih hN.2, List.countP_cons]
      simp [decide_eq_true_eq]

theorem pathRouteCount (pe : String × PathItem)
    (hN : (pe.2.map Prod.fst).Nodup) :
    (routesForPath pe).length = pathPairCount pe := by
  unfold routesForPath pathPairCount
  rw [lengthFilterMapCountP]
  have hcong : ∀ m ∈ recognizedMethods,
      ((lookupA m pe.2).map (fun op =>
        (⟨m, pe.1, resolveOpId m pe.1 op.operationId⟩ : RouteDescriptor))).isSome
        = (lookupA m pe.2).isSome := by
    intro m _
    cases lookupA m pe.2 <;> rfl
  rw [List.countP_congr (fun x hx => by rw [hcong x hx])]
  exact countLookupA pe.2 hN

theorem routeCountEq :
    ∀ (paths : SchemaPaths), (∀ pe ∈ paths, (pe.2.map Prod.fst).Nodup) →
      (createProxyRoutes paths).length = schemaMethodPairs paths := by
  intro paths
  induction paths with
  | nil => intro _; rfl
  | cons pe paths ih =>
      intro h
      unfold createProxyRoutes schemaMethodPairs
      rw [List.flatMap_cons, List.length_append, List.map_cons, List.sum_cons,
        pathRouteCount pe (h pe (List.mem_cons_self _ _))]
      have h2 := ih (fun q hq => h q (List.mem_cons_of_mem _ hq))
      unfold createProxyRoutes schemaMethodPairs at h2
      rw [h2]

/-- Claim C1 (amended): for every schema whose path items are method
dicts (unique method keys), create_proxy_routes registers exactly one
route per (path, method) pair whose method is one of get, post, put,
delete, patch, and every registered route's method is from that set;
methods outside the set are ignored.  Each route carries a declared or
derived operation identifier, but - contrary to the original claim -
uniqueness of the identifiers across the route table is NOT enforced:
no collision check exists, see the counterexample. -/
theorem routeTableBuild (paths : SchemaPaths)
    (h : ∀ pe ∈ paths, (pe.2.map Prod.fst).Nodup) :
    (createProxyRoutes paths).length = schemaMethodPairs paths ∧
    ∀ r ∈ createProxyRoutes paths, r.method ∈ recognizedMethods := by
  refine ⟨routeCountEq paths h, ?_⟩
  intro r hr
  rcases List.mem_flatMap.mp hr with ⟨pe, hpe, hrp⟩
  rcases List.mem_filterMap.mp hrp with ⟨m, hm, heq⟩
  cases hlk : lookupA m pe.2 with
  | none =>
      rw [hlk] at heq
      exact absurd heq (by simp)
  | some op =>
      rw [hlk] at heq
      have h2 : (⟨m, pe.1, resolveOpId m pe.1 op.operationId⟩ : RouteDescriptor) = r := by
        simpa using heq
      rw [← h2]
      exact hm

/-- Witness for C1: a one-path, one-method schema yields exactly one
route. -/
theorem routeTableBuild_witness :
    (createProxyRoutes [("/ping", [("get", (⟨none⟩ : Operation))])]).length = 1 := by
  have h := (routeTableBuild [("/ping", [("get", (⟨none⟩ : Operation))])] (by decide)).1
  rw [h]
  decide

/-- Counterexample to C1 as literally stated: two distinct paths /a/b
and /a_b with no declared ids both derive the operation id get_a_b, so
the produced identifiers are not unique across the route table. -/
theorem routeTableBuild_cex :
    ¬ ((createProxyRoutes [("/a/b", [("get", (⟨none⟩ : Operation))]),
        ("/a_b", [("get", (⟨none⟩ : Operation))])]).map RouteDescriptor.operationId).Nodup := by
  decide

theorem pyDictFold :
    ∀ (l acc : List (String × String)), ((acc ++ l).map Prod.fst).Nodup →
      l.foldl (fun d p => dictInsert d p.1 p.2) acc = acc ++ l := by
  intro l
  induction l with
  | nil => intro acc _; simp
  | cons p l ih =>
      intro acc h
      have h2 := h
      rw [List.map_append, List.map_cons, List.nodup_append] at h2
      have hmem : p.1 ∉ acc.map Prod.fst := fun hm => h2.2.2 hm (by simp)
      have hins : dictInsert acc p.1 p.2 = acc ++ [(p.1, p.2)] := by
        unfold dictInsert
        rw [if_neg hmem]
      show List.foldl _ (dictInsert acc p.1 p.2) l = acc ++ p :: l
      rw [hins, ih (acc ++ [(p.1, p.2)]) (by rw [List.append_assoc]; exact h),
        List.append_assoc]
      simp

theorem pyDictId (l : List (String × String)) (h : (l.map Prod.fst).Nodup) :
    pyDict l = l := by
  unfold pyDict
  have h0 := pyDictFold l [] (by simpa using h)
  simpa using h0

/-- Claim C7: all inbound query parameters are forwarded verbatim to the
outbound call in the insertion order of the inbound request's query
mapping - dict(request.query_params) is the identity on a key-unique
ordered mapping. -/
theorem queryRelay (cfg : HandlerCfg) (req : Inbound)
    (h : (req.queryParams.map Prod.fst).Nodup) :
    (buildOutbound cfg req).params = req.queryParams := by
  show pyDict req.queryParams = req.queryParams
  exact pyDictId req.queryParams h

/-- Witness for C7: two parameters pass through in order. -/
theorem queryRelay_witness :
    (buildOutbound ⟨"http://localhost:6673", "/ping", "GET"⟩
      ⟨"GET", [], [("b", "2"), ("a", "1")], [], none, none⟩).params
      = [("b", "2"), ("a", "1")] :=
  queryRelay ⟨"http://localhost:6673", "/ping", "GET"⟩
    ⟨"GET", [], [("b", "2"), ("a", "1")], [], none, none⟩ (by decide)

/-- Claim C6: the remote response is normalized exactly as specified -
a content-type starting with application/json is decoded, with the
single-field raw-text wrapper on decode failure or any other
content-type; the remote's status code and its headers (a key-unique
header mapping, relayed with no allow-list) reach the inbound caller
verbatim through the handler. -/
theorem responseNormalization (cfg : HandlerCfg) (remote : Outbound → RemoteOutcome)
    (req : Inbound) (r : RemoteResponse)
    (hok : remote (buildOutbound cfg req) = .ok r) :
    ((r.headers.map Prod.fst).Nodup →
      handler cfg remote req = .response (normalizedContent r) r.status r.headers) ∧
    (∀ j, pyStartsWith (contentTypeOf r.headers) "application/json" = true →
      r.jsonResult = some j → normalizedContent r = j) ∧
    (pyStartsWith (contentTypeOf r.headers) "application/json" = true →
      r.jsonResult = none →
      normalizedContent r = .obj [("content", .str r.bodyText)]) ∧
    (pyStartsWith (contentTypeOf r.headers) "application/json" = false →
      normalizedContent r = .obj [("content", .str r.bodyText)]) := by
  refine ⟨?_, ?_, ?_, ?_⟩
  · intro hN
    unfold handler
    rw [hok]
    show HandlerResult.response (normalizedContent r) r.status (pyDict r.headers) = _
    rw [pyDictId r.headers hN]
  · intro j hct hj
    simp [normalizedContent, hct, hj]
  · intro hct hj
    simp [normalizedContent, hct, hj]
  · intro hct
    simp [normalizedContent, hct]

/-- Witness for C6: a non-JSON remote response is wrapped and its status
and headers are relayed unchanged. -/
theorem responseNormalization_witness :
    handler ⟨"u", "/p", "GET"⟩
      (fun _ => .ok ⟨200, [("content-type", "text/plain")], "pong", none⟩)
      ⟨"GET", [], [], [], none, none⟩
      = .response (.obj [("content", .str "pong")]) 200 [("content-type", "text/plain")] := by
  have h := (responseNormalization ⟨"u", "/p", "GET"⟩
    (fun _ => .ok ⟨200, [("content-type", "text/plain")], "pong", none⟩)
    ⟨"GET", [], [], [], none, none⟩
    ⟨200, [("content-type", "text/plain")], "pong", none⟩ rfl).1 (by decide)
  rw [h]
  rfl

/-- Claim C9: a connection error on one forwarded call surfaces to that
caller as HTTPException(502), and - the handler being a pure function of
its own inbound call and the remote's behaviour on it - any other call
whose dispatch the remote answers is served its normal response
unchanged. -/
theorem forwardFailureIsolation (cfg : HandlerCfg) (remote : Outbound → RemoteOutcome)
    (req : Inbound) (herr : remote (buildOutbound cfg req) = .connError) :
    handler cfg remote req = .gatewayError 502 ∧
    (∀ req2 r2, remote (buildOutbound cfg req2) = .ok r2 →
      handler cfg remote req2
        = .response (normalizedContent r2) r2.status (pyDict r2.headers)) := by
  constructor
  · unfold handler
    rw [herr]
  · intro req2 r2 hok
    unfold handler
    rw [hok]

/-- Witness for C9: an unreachable remote yields the 502 gateway error. -/
theorem forwardFailureIsolation_witness :
    handler ⟨"u", "/p", "GET"⟩ (fun _ => .connError) ⟨"GET", [], [], [], none, none⟩
      = .gatewayError 502 :=
  (forwardFailureIsolation ⟨"u", "/p", "GET"⟩ (fun _ => .connError)
    ⟨"GET", [], [], [], none, none⟩ rfl).1

/-- Claim C3 (amended): for POST/PUT/PATCH the handler attempts JSON
decoding first; a successfully decoded non-empty JSON object is sent as
the json kwarg (that exact object, never re-encoded as raw content),
and when decoding fails a non-empty raw payload is sent as the content
kwarg; for any other method no body is sent; and on every call at most
one of the two kwargs is set.  (The original "exactly when decoding
fails, the raw bytes are forwarded" fails at falsy bodies, see the
counterexample and claim C10.) -/
theorem bodyRelay :
    (∀ b, jsonArgOf b = none ∨ contentArgOf b = none) ∧
    (∀ m jr rr, m ∉ bodyMethods →
      jsonArgOf (getBody m jr rr) = none ∧ contentArgOf (getBody m jr rr) = none) ∧
    (∀ m jr rr fs, m ∈ bodyMethods → jr = some (.obj fs) → fs ≠ [] →
      jsonArgOf (getBody m jr rr) = some (.obj fs) ∧
      contentArgOf (getBody m jr rr) = none) ∧
    (∀ m rr bs, m ∈ bodyMethods → rr = some bs → bs ≠ [] →
      contentArgOf (getBody m none rr) = some (.raw bs) ∧
      jsonArgOf (getBody m none rr) = none) := by
  refine ⟨?_, ?_, ?_, ?_⟩
  · intro b
    match b with
    | none => exact Or.inl rfl
    | some (.raw bs) => exact Or.inl rfl
    | some (.json (.obj fs)) =>
        exact Or.inr (by simp [contentArgOf, bodyIsDict])
    | some (.json .null) => exact Or.inl rfl
    | some (.json (.bool b0)) => exact Or.inl rfl
    | some (.json (.num n0)) => exact Or.inl rfl
    | some (.json (.str s0)) => exact Or.inl rfl
    | some (.json (.arr es)) => exact Or.inl rfl
  · intro m jr rr hm
    simp [getBody, hm, jsonArgOf, contentArgOf]
  · intro m jr rr fs hm hjr hfs
    subst hjr
    have hne : fs.isEmpty = false := by
      cases fs with
      | nil => exact absurd rfl hfs
      | cons f fs0 => rfl
    constructor
    · simp [getBody, hm, jsonArgOf, hne]
    · simp [getBody, hm, contentArgOf, bodyIsDict]
  · intro m rr bs hm hrr hbs
    subst hrr
    have hne : bs.isEmpty = false := by
      cases bs with
      | nil => exact absurd rfl hbs
      | cons b0 bs0 => rfl
    constructor
    · simp [getBody, hm, contentArgOf, bodyTruthy, bodyIsDict, hne]
    · simp [getBody, hm, jsonArgOf]

/-- Witness for C3: the spec's round-trip example - a decoded JSON
object is forwarded as that exact JSON object. -/
theorem bodyRelay_witness :
    jsonArgOf (getBody "POST" (some (.obj [("a", .num 1)])) none)
      = some (.obj [("a", .num 1)]) :=
  (bodyRelay.2.2.1 "POST" (some (.obj [("a", .num 1)])) none [("a", .num 1)]
    (by decide) rfl (by simp)).1

/-- Counterexample to C3 as literally stated: a POST whose body is the
empty byte string fails JSON decoding, yet the raw payload is NOT
forwarded - the falsy test `if body` suppresses it, so no body at all
is sent. -/
theorem bodyRelay_cex :
    getBody "POST" none (some []) = some (.raw []) ∧
    contentArgOf (getBody "POST" none (some [])) = none ∧
    jsonArgOf (getBody "POST" none (some [])) = none := by
  exact ⟨rfl, rfl, rfl⟩

/-- Claim C10: for POST/PUT/PATCH, a body decoding to a falsy JSON value
(empty object, empty array, 0, empty string, false, null) or an empty
raw byte payload results in no outbound body at all, and a body decoding
to a truthy JSON value that is not an object is forwarded through the
content kwarg, not the json kwarg. -/
theorem falsyBodyHandling :
    (∀ j, j ∈ [Json.obj [], Json.arr [], Json.num 0, Json.str "", Json.bool false, Json.null] →
      pyTruthy j = false) ∧
    (∀ m jr rr j, m ∈ bodyMethods → jr = some j → pyTruthy j = false →
      jsonArgOf (getBody m jr rr) = none ∧ contentArgOf (getBody m jr rr) = none) ∧
    (∀ m, m ∈ bodyMethods →
      jsonArgOf (getBody m none (some [])) = none ∧
      contentArgOf (getBody m none (some [])) = none) ∧
    (∀ m jr rr j, m ∈ bodyMethods → jr = some j → pyTruthy j = true →
      (∀ fs, j ≠ .obj fs) →
      contentArgOf (getBody m jr rr) = some (.json j) ∧
      jsonArgOf (getBody m jr rr) = none) := by
  refine ⟨?_, ?_, ?_, ?_⟩
  · intro j hj
    simp only [List.mem_cons, List.not_mem_nil, or_false] at hj
    rcases hj with rfl | rfl | rfl | rfl | rfl | rfl <;> rfl
  · intro m jr rr j hm hjr hj
    subst hjr
    constructor
    · cases j with
      | obj fs =>
          have hfs : fs.isEmpty = true := by simpa [pyTruthy] using hj
          simp [getBody, hm, jsonArgOf, hfs]
      | null => simp [getBody, hm, jsonArgOf]
      | bool b0 => simp [getBody, hm, jsonArgOf]
      | num n0 => simp [getBody, hm, jsonArgOf]
      | str s0 => simp [getBody, hm, jsonArgOf]
      | arr es => simp [getBody, hm, jsonArgOf]
    · simp [getBody, hm, contentArgOf, bodyTruthy, hj]
  · intro m hm
    constructor
    · simp [getBody, hm, jsonArgOf]
    · simp [getBody, hm, contentArgOf, bodyTruthy]
  · intro m jr rr j hm hjr hj hobj
    subst hjr
    have hdict : bodyIsDict (some (.json j)) = false := by
      cases j with
      | obj fs => exact absurd rfl (hobj fs)
      | null => rfl
      | bool b0 => rfl
      | num n0 => rfl
      | str s0 => rfl
      | arr es => rfl
    constructor
    · simp [getBody, hm, contentArgOf, bodyTruthy, hj, hdict]
    · cases j with
      | obj fs => exact absurd rfl (hobj fs)
      | null => simp [getBody, hm, jsonArgOf]
      | bool b0 => simp [getBody, hm, jsonArgOf]
      | num n0 => simp [getBody, hm, jsonArgOf]
      | str s0 => simp [getBody, hm, jsonArgOf]
      | arr es => simp [getBody, hm, jsonArgOf]

/-- Witness for C10: a non-empty JSON array is forwarded as content, not
as the json kwarg. -/
theorem falsyBodyHandling_witness :
    contentArgOf (getBody "POST" (some (.arr [.num 1])) none)
      = some (.json (.arr [.num 1])) :=
  (falsyBodyHandling.2.2.2 "POST" (some (.arr [.num 1])) none (.arr [.num 1])
    (by decide) rfl rfl (fun fs h => nomatch h)).1

/-- Claim C4 (amended): in the integrated server the outbound headers are
exactly the allow-listed pair - every header outside (authorization,
content-type) never reaches the remote, each allow-listed header present
inbound is forwarded with its inbound value, and the outbound headers are
invariant under any change of non-allow-listed inbound headers.  In the
standalone variant the same holds with the strictly smaller allow-list
(authorization) only: contrary to the original claim, an inbound
content-type is NOT forwarded there, see the counterexample. -/
theorem headerAllowList :
    (∀ inbound p, p ∈ requestHeadersIntegrated inbound →
      (p.1 = "authorization" ∨ p.1 = "content-type") ∧ lookupA p.1 inbound = some p.2) ∧
    (∀ inbound n v, (n = "authorization" ∨ n = "content-type") →
      lookupA n inbound = some v →
      lookupA n (requestHeadersIntegrated inbound) = some v) ∧
    (∀ inbound p, p ∈ requestHeadersStandalone inbound →
      p.1 = "authorization" ∧ lookupA p.1 inbound = some p.2) ∧
    (∀ inbound inbound2,
      lookupA "authorization" inbound = lookupA "authorization" inbound2 →
      lookupA "content-type" inbound = lookupA "content-type" inbound2 →
      requestHeadersIntegrated inbound = requestHeadersIntegrated inbound2) ∧
    (∀ inbound inbound2,
      lookupA "authorization" inbound = lookupA "authorization" inbound2 →
      requestHeadersStandalone inbound = requestHeadersStandalone inbound2) := by
  refine ⟨?_, ?_, ?_, ?_, ?_⟩
  · intro inbound p hp
    rcases List.mem_filterMap.mp hp with ⟨n, hn, heq⟩
    cases hlk : lookupA n inbound with
    | none =>
        rw [hlk] at heq
        exact absurd heq (by simp)
    | some v =>
        rw [hlk] at heq
        have hpv : (n, v) = p := by simpa using heq
        cases hpv
        simp only [List.mem_cons, List.not_mem_nil, or_false] at hn
        exact ⟨hn, hlk⟩
  · intro inbound n v hn hv
    rcases hn with rfl | rfl
    · cases hct : lookupA "content-type" inbound with
      | none => simp [requestHeadersIntegrated, List.filterMap_cons, hv, hct, lookupA]
      | some c => simp [requestHeadersIntegrated, List.filterMap_cons, hv, hct, lookupA]
    · cases hau : lookupA "authorization" inbound with
      | none => simp [requestHeadersIntegrated, List.filterMap_cons, hv, hau, lookupA]
      | some a => simp [requestHeadersIntegrated, List.filterMap_cons, hv, hau, lookupA]
  · intro inbound p hp
    unfold requestHeadersStandalone at hp
    cases hau : lookupA "authorization" inbound with
    | none =>
        rw [hau] at hp
        exact absurd hp (by simp)
    | some v =>
        rw [hau] at hp
        have hpv : p = ("authorization", v) := by simpa using hp
        cases hpv
        exact ⟨rfl, hau⟩
  · intro inbound inbound2 h1 h2
    simp only [requestHeadersIntegrated, List.filterMap_cons, List.filterMap_nil]
    rw [h1, h2]
  · intro inbound inbound2 h1
    unfold requestHeadersStandalone
    rw [h1]

/-- Witness for C4: an allow-listed header passes through with its
inbound value. -/
theorem headerAllowList_witness :
    lookupA "authorization"
      (requestHeadersIntegrated [("authorization", "Bearer x"), ("host", "local")])
      = some "Bearer x" :=
  headerAllowList.2.1 [("authorization", "Bearer x"), ("host", "local")]
    "authorization" "Bearer x" (Or.inl rfl) (by decide)

/-- Counterexample to C4 as literally stated: the standalone variant
drops an inbound content-type even though the claimed allow-list
includes it - only authorization is forwarded there. -/
theorem headerAllowList_cex :
    lookupA "content-type"
      [("authorization", "Bearer x"), ("content-type", "application/json"),
        ("host", "local")]
      = some "application/json" ∧
    requestHeadersStandalone
      [("authorization", "Bearer x"), ("content-type", "application/json"),
        ("host", "local")]
      = [("authorization", "Bearer x")] ∧
    lookupA "content-type"
      (requestHeadersStandalone
        [("authorization", "Bearer x"), ("content-type", "application/json"),
          ("host", "local")])
      = none := by
  exact ⟨by decide, by decide, by decide⟩

/-- Claim C8 (amended): the schema fetch fails on a connection or timeout
error and on an undecodable body; raise_for_status accepts exactly the
2xx range, so - contrary to the original "only on HTTP 200" - any 2xx
status with a JSON-decodable body succeeds (see the counterexample at
201) while every non-2xx status fails; and whenever the fetch fails,
setup returns None and no route is registered, otherwise exactly the
built route table is registered. -/
theorem schemaFetchStartup :
    (∀ o e, fetchOpenapiSchema o = .error e → setupRoutes o = none) ∧
    (∀ st j, 200 ≤ st → st ≤ 299 → fetchOpenapiSchema (.response st (some j)) = .ok j) ∧
    (∀ st j, ¬(200 ≤ st ∧ st ≤ 299) →
      fetchOpenapiSchema (.response st j) = .error "status") ∧
    (∀ st, 200 ≤ st → st ≤ 299 →
      fetchOpenapiSchema (.response st none) = .error "undecodable") ∧
    fetchOpenapiSchema .connError = .error "unreachable" ∧
    (∀ o j, fetchOpenapiSchema o = .ok j →
      setupRoutes o = some (createProxyRoutes (toPaths j))) := by
  refine ⟨?_, ?_, ?_, ?_, rfl, ?_⟩
  · intro o e he
    unfold setupRoutes
    rw [he]
  · intro st j h1 h2
    show (if 200 ≤ st ∧ st ≤ 299 then _ else _) = _
    rw [if_pos ⟨h1, h2⟩]
  · intro st j h
    show (if 200 ≤ st ∧ st ≤ 299 then _ else _) = _
    rw [if_neg h]
  · intro st h1 h2
    show (if 200 ≤ st ∧ st ≤ 299 then _ else _) = _
    rw [if_pos ⟨h1, h2⟩]
  · intro o j hj
    unfold setupRoutes
    rw [hj]

/-- Witness for C8: an unreachable remote registers no routes. -/
theorem schemaFetchStartup_witness : setupRoutes FetchOutcome.connError = none :=
  schemaFetchStartup.1 FetchOutcome.connError "unreachable" rfl

/-- Counterexample to C8 as literally stated: a 201 response with a
JSON-decodable body makes the fetch succeed, although the claim allows
success only on HTTP 200. -/
theorem schemaFetchStartup_cex :
    fetchOpenapiSchema (.response 201 (some (Json.obj []))) = .ok (Json.obj []) ∧
    (201 : Nat) ≠ 200 := by
  exact ⟨rfl, by decide⟩
